import Mathlib

/-!
# Verification of the xio_workqueue deferred-execution engine

Shallow embedding of `src/usr/xio/xio_workqueue.c` (accelio): work items,
the wake channel, the one-shot timer resource, and the delayed-work registry,
together with theorems settling the specification claims.

The external collaborators `xio_timers_list` (the Deadline Registry) and
`xio_context` (the Execution Context) are declared in headers that are not
part of this repository snapshot; where their behaviour matters they are
modelled from the specification's contract for them (see the doc comments
marked "Modelled from the spec").

Machine integers are embedded as `Int`/`Nat` with explicit `% 2 ^ 64` where
C unsigned overflow matters. OS calls (`timerfd_settime`, `read`, `write`,
registry insert) are embedded with explicit oracle parameters giving their
outcome, so every error branch of the C code is a reachable branch of the
embedding.
-/

namespace XioWq

/-- Identity of a caller-owned work handle: the C code passes the handle's
address through the pipe as a `uint64_t` token; we use an abstract `Nat`. -/
abbrev Token := Nat

/-- Embedding of `xio_work_handle_t`: the caller-owned record holding the
callback (`work->function`), its opaque argument (`work->data`) and the
`XIO_WORK_PENDING` flag bit. Callback and data are opaque identifiers. -/
structure WorkItem where
  pending  : Bool
  func     : Nat
  data     : Nat
deriving DecidableEq

/-! ## Immediate work: xio_workqueue_add_work / xio_workqueue_del_work -/

/-- Result of `xio_workqueue_add_work`: the mutated handle, the wake-channel
contents after the call, and the C return value. -/
structure AddWorkResult where
  work    : WorkItem
  channel : List Token
  retval  : Int
deriving DecidableEq

/-- Embedding of `xio_workqueue_add_work`. The wake channel (the pipe) is
modelled at token granularity: a full 8-byte write (`s = 8`) enqueues the
token; by the OS atomicity guarantee for fixed-width writes no partial token
is ever observable in the channel, so `s < 0` (would block) and `s ≠ 8`
(under-write) leave the channel unchanged. `s` is the oracle for the return
value of `write`. The C code sets `function`, `data` and the
`XIO_WORK_PENDING` bit before the write, so the handle is mutated on every
path. -/
def xio_workqueue_add_work (channel : List Token) (work : WorkItem)
    (tok : Token) (func data : Nat) (s : Int) : AddWorkResult :=
  let work : WorkItem := { work with func := func, data := data, pending := true }
  if s < 0 then
    { work := work, channel := channel, retval := -1 }
  else if s ≠ 8 then
    { work := work, channel := channel, retval := -1 }
  else
    { work := work, channel := channel ++ [tok], retval := 0 }

/-- Embedding of `xio_workqueue_del_work`: clear `XIO_WORK_PENDING` and
return 0 if it was set, else return -1 leaving the handle untouched. -/
def xio_workqueue_del_work (work : WorkItem) : WorkItem × Int :=
  if work.pending then ({ work with pending := false }, 0) else (work, -1)

/-! ## Wake-channel drain handler: xio_work_action_handler -/

/-- One observed callback invocation of the drain loop: the token read from
the pipe and the state of the work item at the moment `work->function` is
called (i.e. after the `work->flags &= ~XIO_WORK_PENDING` line). -/
structure Invocation where
  tok  : Token
  item : WorkItem
deriving DecidableEq

/-- The line `work->flags &= ~XIO_WORK_PENDING`: the item with its Pending
bit cleared. -/
def clearItem (w : WorkItem) : WorkItem :=
  { w with pending := false }

/-- Embedding of `xio_work_action_handler`'s drain loop. `items` maps each
token to its work item (dereferencing `ptr_from_int64`). Tokens are read one
at a time in FIFO order until the read would block (channel exhausted); a
token whose item has `XIO_WORK_PENDING` set has the flag cleared and the
callback invoked (recorded with the item state visible to the callback);
other tokens are skipped. Returns the final item map and the invocation
list in order. -/
def xio_work_action_handler (items : Token → WorkItem) :
    List Token → (Token → WorkItem) × List Invocation
  | [] => (items, [])
  | t :: rest =>
    let w := items t
    if w.pending then
      let items' : Token → WorkItem := fun u => if u = t then clearItem w else items u
      let (fin, inv) := xio_work_action_handler items' rest
      (fin, ⟨t, clearItem w⟩ :: inv)
    else
      xio_work_action_handler items rest

/-! ## Timespec normalization: set_normalized_timespec -/

/-- Embedding of `struct timespec`. -/
structure Timespec where
  tv_sec  : Int
  tv_nsec : Int
deriving DecidableEq

/-- The all-zero `itimerspec` value `{ {0, 0}, {0, 0} }` whose `it_value`
programs the OS "disarm" behaviour. -/
def zeroTs : Timespec := ⟨0, 0⟩

/-- The constant `NSEC_PER_SEC` / `XIO_NS_IN_SEC`. -/
def NSEC_PER_SEC : Int := 1000000000

/-- First loop of `set_normalized_timespec`:
`while (nsec >= XIO_NS_IN_SEC) { nsec -= XIO_NS_IN_SEC; ++sec; }`. -/
def norm_down (sec nsec : Int) : Int × Int :=
  if h : NSEC_PER_SEC ≤ nsec then
    norm_down (sec + 1) (nsec - NSEC_PER_SEC)
  else
    (sec, nsec)
termination_by nsec.toNat
decreasing_by
  simp only [NSEC_PER_SEC] at h ⊢
  omega

/-- Second loop of `set_normalized_timespec`:
`while (nsec < 0) { nsec += XIO_NS_IN_SEC; --sec; }`. -/
def norm_up (sec nsec : Int) : Int × Int :=
  if h : nsec < 0 then
    norm_up (sec - 1) (nsec + NSEC_PER_SEC)
  else
    (sec, nsec)
termination_by (-nsec).toNat
decreasing_by
  simp only [NSEC_PER_SEC] at h ⊢
  omega

/-- Embedding of `set_normalized_timespec`: runs the two normalization loops
in sequence and stores the result. -/
def set_normalized_timespec (sec nsec : Int) : Timespec :=
  let p := norm_down sec nsec
  let q := norm_up p.1 p.2
  ⟨q.1, q.2⟩

/-! ## The WorkQueue state for delayed work

The Deadline Registry (`xio_timers_list`) is external to this file's source:
only `xio_timers_list.h` is consumed, the implementation is not in the
repository snapshot. It is modelled from the spec's contract (§6): an ordered
collection of entries supporting `is_empty`, `nanoseconds_until_next`
(`Option u64`, embedded as the C sentinel convention `-1` = none used by the
caller), `insert`, `remove` (error iff the token is unknown), and
`expire_due` which invokes, removes and idles every due entry. Entries are
`(token, absolute deadline in ns)` pairs; the token is the handle identity
(the registry node `dwork->timer` lives inside the handle). -/

/-- State of one WorkQueue together with the caller-owned delayed handles.
`inPoll` and `timerArmed` are the `XIO_WORKQUEUE_IN_POLL` and
`XIO_WORKQUEUE_TIMER_ARMED` flag bits. `programmed` is the OS-level state of
the timerfd: `some v` when a one-shot expiration `v ≠ 0` is currently
programmed and has neither fired nor been overwritten, `none` when the timer
is disarmed or has fired. `registry` is the Deadline Registry content and
`pending` the `XIO_WORK_PENDING` bit of each delayed handle. -/
structure QState where
  inPoll     : Bool
  timerArmed : Bool
  programmed : Option Timespec
  registry   : List (Token × Nat)
  pending    : Token → Bool

/-- Modelled from the spec: `xio_timers_list_is_empty`. -/
def timers_list_is_empty (reg : List (Token × Nat)) : Bool :=
  reg.isEmpty

/-- Modelled from the spec: `xio_timerlist_ns_duration_to_expire`, the C
caller's view of `nanoseconds_until_next() -> Option<u64>`: `-1` when the
registry has no next deadline, otherwise the non-negative remaining time to
the earliest deadline (0 when already due). -/
def ns_duration_to_expire (reg : List (Token × Nat)) (now : Nat) : Int :=
  match reg.map (fun e => e.2) |>.min? with
  | none => -1
  | some d => ((d - now : Nat) : Int)

/-- Effect of `timerfd_settime(timer_fd, 0, new_t, NULL)` on the modelled
timerfd when the syscall succeeds: programming the zero value disarms,
any other value installs it as the pending one-shot expiration. On syscall
failure the OS timer state is unchanged. -/
def settime (prog : Option Timespec) (v : Timespec) (ok : Bool) :
    Option Timespec :=
  if ok then (if v = zeroTs then none else some v) else prog

/-! ## xio_workqueue_rearm / xio_workqueue_disarm -/

/-- Embedding of `xio_workqueue_rearm`. `now` is the current monotonic time
used by the registry query; `ok` is the oracle for `timerfd_settime`
succeeding. Returns the new state and the C return value. -/
def xio_workqueue_rearm (s : QState) (now : Nat) (ok : Bool) : QState × Int :=
  if s.inPoll then (s, 0)
  else if timers_list_is_empty s.registry then (s, 0)
  else
    let ns_to_expire := ns_duration_to_expire s.registry now
    if ns_to_expire = -1 then (s, 0)
    else
      let new_t : Timespec :=
        if ns_to_expire < 1 then ⟨0, 1⟩
        else set_normalized_timespec 0 ns_to_expire
      if ok then
        ({ s with programmed := settime s.programmed new_t true,
                  timerArmed := true }, 0)
      else
        (s, -1)

/-- Embedding of `xio_workqueue_disarm`: a no-op unless `TIMER_ARMED` is
set; otherwise program the zero value (failure of the syscall is logged,
never propagated — the function returns `void`) and clear `TIMER_ARMED`
unconditionally. -/
def xio_workqueue_disarm (s : QState) (ok : Bool) : QState :=
  if s.timerArmed then
    { s with programmed := settime s.programmed zeroTs ok,
             timerArmed := false }
  else
    s

/-! ## xio_workqueue_add_delayed_work / xio_workqueue_del_delayed_work -/

/-- The duration in nanoseconds handed to the registry by
`xio_workqueue_add_delayed_work`: the C expression
`((uint64_t)msec_duration) * 1000000ULL` with `msec_duration` a signed
`int`, i.e. the signed value reduced modulo `2 ^ 64`, multiplied by
`10 ^ 6` in `uint64_t` arithmetic. -/
def duration_ns (msec : Int) : Nat :=
  ((msec % ((2 : Int) ^ 64)).toNat * 1000000) % 2 ^ 64

/-- Embedding of `xio_workqueue_add_delayed_work` for handle `h`. Under the
registry lock: store callback and data is not tracked here (the delayed
handles' `func`/`data` fields play no role in the registry invariants), set
`XIO_WORK_PENDING`, insert an entry keyed by `now + duration` (Modelled from
the spec: `insert(duration_ns) -> Result<Token, Error>`, failure given by
the oracle `insertOk`); on insert failure return -1 with the flag left set,
otherwise run the rearm protocol and return its result. -/
def xio_workqueue_add_delayed_work (s : QState) (h : Token) (msec : Int)
    (now : Nat) (insertOk settimeOk : Bool) : QState × Int :=
  let s := { s with pending := fun x => if x = h then true else s.pending x }
  if insertOk then
    let s := { s with registry := s.registry ++ [(h, now + duration_ns msec)] }
    xio_workqueue_rearm s now settimeOk
  else
    (s, -1)

/-- Modelled from the spec: registry `remove(token)`, deleting the entry of
token `h`; the C `xio_timers_list_del` reports `TIMERS_LIST_RC_ERROR` iff
the token is unknown. -/
def timers_list_del (reg : List (Token × Nat)) (h : Token) :
    List (Token × Nat) :=
  reg.filter (fun e => decide (e.1 ≠ h))

/-- Embedding of `xio_workqueue_del_delayed_work` for handle `h`: disarm the
timer first (syscall oracle `disarmOk`), clear `XIO_WORK_PENDING`, delete
the registry entry — on `TIMERS_LIST_RC_ERROR` (token not present) only log
and jump to `unlock`, leaving `retval` at its initial value 0 — else rerun
the rearm protocol (syscall oracle `rearmOk`) and return its result. -/
def xio_workqueue_del_delayed_work (s : QState) (h : Token) (now : Nat)
    (disarmOk rearmOk : Bool) : QState × Int :=
  let s := xio_workqueue_disarm s disarmOk
  let s := { s with pending := fun x => if x = h then false else s.pending x }
  if s.registry.any (fun e => decide (e.1 = h)) then
    let s := { s with registry := timers_list_del s.registry h }
    xio_workqueue_rearm s now rearmOk
  else
    (s, 0)

/-! ## Timer-expiry dispatch: xio_delayed_action_handler -/

/-- Modelled from the spec: `expire_due(now)` — invoke, remove and idle
every registry entry whose deadline is at or before `now` (the work-item
state machine transitions Pending → Idle on fire). -/
def timers_list_expire (s : QState) (now : Nat) : QState :=
  { s with
    registry := s.registry.filter (fun e => decide (now < e.2)),
    pending  := fun x =>
      if s.registry.any (fun e => decide (e.1 = x ∧ e.2 ≤ now)) then false
      else s.pending x }

/-- Embedding of `xio_delayed_action_handler` in the case where the read of
the timerfd expiration counter succeeds (the timer has fired, consuming the
programmed expiration): set `IN_POLL`, expire all due entries, clear
`IN_POLL`, then rearm under the registry lock. -/
def xio_delayed_action_handler (s : QState) (now : Nat) (settimeOk : Bool) :
    QState :=
  let s := { s with programmed := none }
  let s := { s with inPoll := true }
  let s := timers_list_expire s now
  let s := { s with inPoll := false }
  (xio_workqueue_rearm s now settimeOk).1

/-! ## Construction: xio_workqueue_create -/

/-- Resource ledger for one `xio_workqueue_create` call: which resources are
held at the moment the call returns. `allocHeld` is the `ucalloc`ed queue
storage, `timerFdOpen` the timerfd, `pipeOpen` both pipe ends,
`timerHandlerRegistered` / `pipeHandlerRegistered` the two readiness sources
registered with the Execution Context via `xio_context_add_ev_handler`. -/
structure CreateSt where
  allocHeld              : Bool
  timerFdOpen            : Bool
  pipeOpen               : Bool
  timerHandlerRegistered : Bool
  pipeHandlerRegistered  : Bool
deriving DecidableEq

/-- Cleanup label `exit` of `xio_workqueue_create`: `ufree(work_queue)`. -/
def create_exit (st : CreateSt) : CreateSt :=
  { st with allocHeld := false }

/-- Cleanup label `exit1`: `close(timer_fd)` then fall through to `exit`. -/
def create_exit1 (st : CreateSt) : CreateSt :=
  create_exit { st with timerFdOpen := false }

/-- Cleanup label `exit2`: `close(pipe_fd[0]); close(pipe_fd[1])` then fall
through to `exit1`. -/
def create_exit2 (st : CreateSt) : CreateSt :=
  create_exit1 { st with pipeOpen := false }

/-- Embedding of `xio_workqueue_create`. The five oracles give the outcomes
of `ucalloc`, `timerfd_create`, `pipe2` and the two
`xio_context_add_ev_handler` calls, in program order. Returns the resource
ledger at exit and whether a (fully built) queue object was returned
(`true`) or `NULL` (`false`). The error paths are the C `goto` chain; note
that no path calls `xio_context_del_ev_handler`. -/
def xio_workqueue_create (allocOk timerfdOk pipeOk evTimerOk evPipeOk : Bool) :
    CreateSt × Bool :=
  if ¬ allocOk then
    (⟨false, false, false, false, false⟩, false)
  else
    let st : CreateSt := ⟨true, false, false, false, false⟩
    if ¬ timerfdOk then (create_exit st, false)
    else
      let st := { st with timerFdOpen := true }
      if ¬ pipeOk then (create_exit1 st, false)
      else
        let st := { st with pipeOpen := true }
        if ¬ evTimerOk then (create_exit2 st, false)
        else
          let st := { st with timerHandlerRegistered := true }
          if ¬ evPipeOk then (create_exit2 st, false)
          else
            ({ st with pipeHandlerRegistered := true }, true)

/-! ## The transition system of one WorkQueue

Steps are the entry points of the C file acting on a `QState`, each
parameterized by the oracles of its system calls, so every error branch is
its own transition. `submit` carries the side condition that the handle's
embedded registry node is not currently linked (`dwork->timer` lives inside
the caller-owned handle; inserting an already linked node is undefined
behaviour in the intrusive list). -/

/-- The handle `h` currently has an entry in the Deadline Registry (the
membership test the C `xio_timers_list_del` branch performs). -/
abbrev registered (s : QState) (h : Token) : Prop :=
  s.registry.any (fun e => decide (e.1 = h)) = true

/-- One step of the WorkQueue: any entry point, any oracle outcome. -/
inductive WqStep : QState → QState → Prop
  | submit (s : QState) (h : Token) (msec : Int) (now : Nat) (settimeOk : Bool)
      (hfresh : ¬ registered s h) :
      WqStep s (xio_workqueue_add_delayed_work s h msec now true settimeOk).1
  | submitInsertFail (s : QState) (h : Token) (msec : Int) (now : Nat)
      (settimeOk : Bool) :
      WqStep s (xio_workqueue_add_delayed_work s h msec now false settimeOk).1
  | cancel (s : QState) (h : Token) (now : Nat) (disarmOk rearmOk : Bool) :
      WqStep s (xio_workqueue_del_delayed_work s h now disarmOk rearmOk).1
  | rearmStep (s : QState) (now : Nat) (ok : Bool) :
      WqStep s (xio_workqueue_rearm s now ok).1
  | disarmStep (s : QState) (ok : Bool) :
      WqStep s (xio_workqueue_disarm s ok)
  | fire (s : QState) (now : Nat) (settimeOk : Bool)
      (hp : s.programmed ≠ none) :
      WqStep s (xio_delayed_action_handler s now settimeOk)

/-- One step of the WorkQueue in runs where every registry insert succeeds
(the `submitInsertFail` branch never taken). -/
inductive WqStepOkInsert : QState → QState → Prop
  | submit (s : QState) (h : Token) (msec : Int) (now : Nat) (settimeOk : Bool)
      (hfresh : ¬ registered s h) :
      WqStepOkInsert s (xio_workqueue_add_delayed_work s h msec now true settimeOk).1
  | cancel (s : QState) (h : Token) (now : Nat) (disarmOk rearmOk : Bool) :
      WqStepOkInsert s (xio_workqueue_del_delayed_work s h now disarmOk rearmOk).1
  | rearmStep (s : QState) (now : Nat) (ok : Bool) :
      WqStepOkInsert s (xio_workqueue_rearm s now ok).1
  | disarmStep (s : QState) (ok : Bool) :
      WqStepOkInsert s (xio_workqueue_disarm s ok)
  | fire (s : QState) (now : Nat) (settimeOk : Bool)
      (hp : s.programmed ≠ none) :
      WqStepOkInsert s (xio_delayed_action_handler s now settimeOk)

/-- One step of the WorkQueue in runs where every `timerfd_settime` issued
by a disarm (standalone, or the defensive disarm at the head of
`xio_workqueue_del_delayed_work`) succeeds. -/
inductive WqStepDisarmOk : QState → QState → Prop
  | submit (s : QState) (h : Token) (msec : Int) (now : Nat)
      (insertOk settimeOk : Bool) :
      WqStepDisarmOk s (xio_workqueue_add_delayed_work s h msec now insertOk settimeOk).1
  | cancel (s : QState) (h : Token) (now : Nat) (rearmOk : Bool) :
      WqStepDisarmOk s (xio_workqueue_del_delayed_work s h now true rearmOk).1
  | rearmStep (s : QState) (now : Nat) (ok : Bool) :
      WqStepDisarmOk s (xio_workqueue_rearm s now ok).1
  | disarmStep (s : QState) :
      WqStepDisarmOk s (xio_workqueue_disarm s true)
  | fire (s : QState) (now : Nat) (settimeOk : Bool)
      (hp : s.programmed ≠ none) :
      WqStepDisarmOk s (xio_delayed_action_handler s now settimeOk)

/-- State of a freshly created WorkQueue: both flag bits clear, timer not
programmed, registry empty, every delayed handle idle. -/
def initQ : QState :=
  { inPoll := false, timerArmed := false, programmed := none,
    registry := [], pending := fun _ => false }

/-- Reachability from the freshly created queue under arbitrary steps. -/
def ReachableQ (s : QState) : Prop :=
  Relation.ReflTransGen WqStep initQ s

/-- Reachability when every registry insert succeeds. -/
def ReachableQOkInsert (s : QState) : Prop :=
  Relation.ReflTransGen WqStepOkInsert initQ s

/-- Reachability when every disarm syscall succeeds. -/
def ReachableQDisarmOk (s : QState) : Prop :=
  Relation.ReflTransGen WqStepDisarmOk initQ s

/-! ## Sample states used by the concrete witnesses -/

/-- Queue with one registered deadline 1.5 s in the future (at `now = 0`),
its handle pending. -/
def oneQ : QState :=
  { inPoll := false, timerArmed := false, programmed := none,
    registry := [(0, 1500000000)], pending := fun x => x == 0 }

/-- Queue with one registered deadline that is already due at `now = 5`. -/
def oneQdue : QState :=
  { inPoll := false, timerArmed := false, programmed := none,
    registry := [(0, 0)], pending := fun x => x == 0 }

/-- Queue with the timer armed and programmed, no registered deadline. -/
def armedQ : QState :=
  { inPoll := false, timerArmed := true, programmed := some ⟨0, 1⟩,
    registry := [], pending := fun _ => false }

/-- Item map with only the item of token 0 pending. -/
def items0 : Token → WorkItem := fun t => ⟨t == 0, t, t⟩

/-- State after submitting one zero-delay deadline (handle 0 at time 5) to
the fresh queue with every syscall succeeding: entry registered, handle
Pending, timer programmed (1 ns minimum delay) and `TIMER_ARMED` set. -/
def submittedQ : QState :=
  (xio_workqueue_add_delayed_work initQ 0 0 5 true true).1

/-- `submittedQ` after its timer fired and the expiry handler ran at time 5:
the pass empties the registry, so the closing rearm is a no-op and nothing
is programmed any more — but `TIMER_ARMED` is still set. -/
def firedQ : QState :=
  xio_delayed_action_handler submittedQ 5 true

/-- `submittedQ` after a disarm whose `timerfd_settime` failed: the flag is
cleared unconditionally while the timer still holds its programmed
expiration. -/
def disarmFailQ : QState :=
  xio_workqueue_disarm submittedQ false

/-- Auxiliary invariant for the registry/pending correspondence: registry
tokens are pairwise distinct (each handle embeds a single registry node, so
a handle is linked at most once), and every registered handle is Pending. -/
def InvReg (s : QState) : Prop :=
  (s.registry.map Prod.fst).Nodup ∧ ∀ h : Token, registered s h → s.pending h = true

/-- Strengthening of `InvReg` to the full iff: registered exactly when
Pending. -/
def InvRegIff (s : QState) : Prop :=
  (s.registry.map Prod.fst).Nodup ∧ ∀ h : Token, registered s h ↔ s.pending h = true

/-- Invariant relating the `TIMER_ARMED` bit to the modelled OS timer: a
pending programmed expiration implies the flag is set. -/
def InvArm (s : QState) : Prop :=
  s.programmed ≠ none → s.timerArmed = true

/-! ## Helper lemmas -/

lemma norm_down_spec (sec nsec : Int) :
    (norm_down sec nsec).1 * NSEC_PER_SEC + (norm_down sec nsec).2
        = sec * NSEC_PER_SEC + nsec ∧
    (norm_down sec nsec).2 < NSEC_PER_SEC ∧
    (0 ≤ nsec → 0 ≤ (norm_down sec nsec).2) := by
  induction sec, nsec using norm_down.induct with
  | case1 sec nsec hge ih =>
    rw [norm_down, dif_pos hge]
    refine ⟨?_, ih.2.1, fun _ => ih.2.2 (by simp only [NSEC_PER_SEC] at hge ⊢; omega)⟩
    rw [ih.1]; ring
  | case2 sec nsec hlt =>
    rw [norm_down, dif_neg hlt]
    exact ⟨rfl, by omega, fun h => h⟩

lemma norm_up_id (sec nsec : Int) (h : 0 ≤ nsec) : norm_up sec nsec = (sec, nsec) := by
  rw [norm_up, dif_neg (by omega)]

/-- Characterization of `set_normalized_timespec 0 n` for non-negative `n`:
the stored pair is the exact duration `n` split into seconds and a
nanosecond part in `[0, 10 ^ 9)`. -/
lemma set_normalized_timespec_spec (n : Int) (hn : 0 ≤ n) :
    (set_normalized_timespec 0 n).tv_sec * NSEC_PER_SEC
        + (set_normalized_timespec 0 n).tv_nsec = n ∧
    0 ≤ (set_normalized_timespec 0 n).tv_nsec ∧
    (set_normalized_timespec 0 n).tv_nsec < NSEC_PER_SEC := by
  obtain ⟨hsum, hlt, hpos⟩ := norm_down_spec 0 n
  have h0 : 0 ≤ (norm_down 0 n).2 := hpos hn
  simp only [set_normalized_timespec]
  rw [norm_up_id _ _ h0]
  exact ⟨by simpa using hsum, h0, hlt⟩

lemma ns_duration_nonneg (reg : List (Token × Nat)) (now : Nat)
    (h : timers_list_is_empty reg = false) :
    0 ≤ ns_duration_to_expire reg now := by
  unfold ns_duration_to_expire
  cases hm : (reg.map (fun e => e.2)).min? with
  | none =>
    rw [List.min?_eq_none_iff] at hm
    cases reg with
    | nil => simp [timers_list_is_empty] at h
    | cons a t => simp at hm
  | some d => simp

lemma rearm_preserves (s : QState) (now : Nat) (ok : Bool) :
    (xio_workqueue_rearm s now ok).1.registry = s.registry ∧
    (xio_workqueue_rearm s now ok).1.pending = s.pending ∧
    (xio_workqueue_rearm s now ok).1.inPoll = s.inPoll := by
  by_cases h1 : s.inPoll = true
  · refine ⟨?_, ?_, ?_⟩ <;> simp [xio_workqueue_rearm, h1]
  by_cases h2 : timers_list_is_empty s.registry = true
  · refine ⟨?_, ?_, ?_⟩ <;> simp [xio_workqueue_rearm, h1, h2]
  by_cases h3 : ns_duration_to_expire s.registry now = -1
  · refine ⟨?_, ?_, ?_⟩ <;> simp [xio_workqueue_rearm, h1, h2, h3]
  cases ok <;> refine ⟨?_, ?_, ?_⟩ <;> simp [xio_workqueue_rearm, h1, h2, h3]

/-- The timespec a successful rearm programs is never the zero/disable
value. -/
lemma rearm_new_t_ne_zero (s : QState) (now : Nat)
    (hemp : timers_list_is_empty s.registry = false) :
    (if ns_duration_to_expire s.registry now < 1 then (⟨0, 1⟩ : Timespec)
     else set_normalized_timespec 0 (ns_duration_to_expire s.registry now))
      ≠ zeroTs := by
  have hr : 0 ≤ ns_duration_to_expire s.registry now :=
    ns_duration_nonneg s.registry now hemp
  split_ifs with h
  · intro hz
    simp [zeroTs] at hz
  · obtain ⟨hsum, hlo, hhi⟩ := set_normalized_timespec_spec _ hr
    intro hz
    rw [hz] at hsum
    simp only [zeroTs] at hsum
    simp at hsum
    omega

lemma rearm_flags (s : QState) (now : Nat) (ok : Bool) :
    ((xio_workqueue_rearm s now ok).1.timerArmed = s.timerArmed ∧
     (xio_workqueue_rearm s now ok).1.programmed = s.programmed) ∨
    ((xio_workqueue_rearm s now ok).1.timerArmed = true ∧
     ∃ v, (xio_workqueue_rearm s now ok).1.programmed = some v) := by
  by_cases h1 : s.inPoll = true
  · exact Or.inl (by constructor <;> simp [xio_workqueue_rearm, h1])
  by_cases h2 : timers_list_is_empty s.registry = true
  · exact Or.inl (by constructor <;> simp [xio_workqueue_rearm, h1, h2])
  by_cases h3 : ns_duration_to_expire s.registry now = -1
  · exact Or.inl (by constructor <;> simp [xio_workqueue_rearm, h1, h2, h3])
  cases ok with
  | false => exact Or.inl (by constructor <;> simp [xio_workqueue_rearm, h1, h2, h3])
  | true =>
    right
    have hz := rearm_new_t_ne_zero s now (by simpa using h2)
    constructor
    · simp [xio_workqueue_rearm, h1, h2, h3]
    · refine ⟨if ns_duration_to_expire s.registry now < 1 then ⟨0, 1⟩
        else set_normalized_timespec 0 (ns_duration_to_expire s.registry now), ?_⟩
      simp [xio_workqueue_rearm, h1, h2, h3, settime, hz]

lemma disarm_registry (s : QState) (ok : Bool) :
    (xio_workqueue_disarm s ok).registry = s.registry := by
  unfold xio_workqueue_disarm; split <;> rfl

lemma disarm_pending (s : QState) (ok : Bool) :
    (xio_workqueue_disarm s ok).pending = s.pending := by
  unfold xio_workqueue_disarm; split <;> rfl

lemma disarm_inPoll (s : QState) (ok : Bool) :
    (xio_workqueue_disarm s ok).inPoll = s.inPoll := by
  unfold xio_workqueue_disarm; split <;> rfl

lemma disarm_armed (s : QState) (ok : Bool) :
    (xio_workqueue_disarm s ok).timerArmed = false := by
  unfold xio_workqueue_disarm; split <;> simp_all

lemma rearm_registry (s : QState) (now : Nat) (ok : Bool) :
    (xio_workqueue_rearm s now ok).1.registry = s.registry :=
  (rearm_preserves s now ok).1

lemma rearm_pending (s : QState) (now : Nat) (ok : Bool) :
    (xio_workqueue_rearm s now ok).1.pending = s.pending :=
  (rearm_preserves s now ok).2.1

lemma rearm_inPoll (s : QState) (now : Nat) (ok : Bool) :
    (xio_workqueue_rearm s now ok).1.inPoll = s.inPoll :=
  (rearm_preserves s now ok).2.2

/-! ## Claim theorems -/

/-- C9: `xio_workqueue_del_work` clears `XIO_WORK_PENDING` and returns
success (0) when the flag is set; otherwise it returns the "not pending"
error (-1) and leaves the handle unchanged. -/
theorem del_work_spec (w : WorkItem) :
    (w.pending = true →
        xio_workqueue_del_work w = ({ w with pending := false }, 0)) ∧
    (w.pending = false → xio_workqueue_del_work w = (w, -1)) := by
  constructor <;> intro h <;> simp [xio_workqueue_del_work, h]

theorem del_work_spec_witness :
    xio_workqueue_del_work ⟨true, 5, 7⟩ = (⟨false, 5, 7⟩, 0) ∧
    xio_workqueue_del_work ⟨false, 5, 7⟩ = (⟨false, 5, 7⟩, -1) :=
  ⟨(del_work_spec ⟨true, 5, 7⟩).1 rfl, (del_work_spec ⟨false, 5, 7⟩).2 rfl⟩

/-- C5: `xio_workqueue_add_work` returns the backpressure error (-1) when
the pipe write would block (`s < 0`) or under-writes (`s < 8`); on that
failure the handle is left Pending and no token was enqueued. On a full
write it returns 0, the handle is Pending with callback and data stored,
and exactly one token identifying the handle has been appended to the
channel. -/
theorem add_work_spec (channel : List Token) (w : WorkItem) (tok : Token)
    (func data : Nat) (s : Int) :
    ((s < 0 ∨ (0 ≤ s ∧ s < 8)) →
        (xio_workqueue_add_work channel w tok func data s).retval = -1 ∧
        (xio_workqueue_add_work channel w tok func data s).work.pending = true ∧
        (xio_workqueue_add_work channel w tok func data s).channel = channel) ∧
    (s = 8 →
        (xio_workqueue_add_work channel w tok func data s).retval = 0 ∧
        (xio_workqueue_add_work channel w tok func data s).work
            = ⟨true, func, data⟩ ∧
        (xio_workqueue_add_work channel w tok func data s).channel
            = channel ++ [tok]) := by
  constructor
  · rintro (h | ⟨h1, h2⟩)
    · simp [xio_workqueue_add_work, h]
    · have hne : ¬ s < 0 := by omega
      have hne8 : s ≠ 8 := by omega
      simp [xio_workqueue_add_work, hne, hne8]
  · rintro rfl
    refine ⟨?_, ?_, ?_⟩ <;> simp [xio_workqueue_add_work]

theorem add_work_spec_witness :
    (xio_workqueue_add_work [] ⟨false, 0, 0⟩ 3 1 2 (-1)).retval = -1 ∧
    (xio_workqueue_add_work [] ⟨false, 0, 0⟩ 3 1 2 4).channel = ([] : List Token) ∧
    (xio_workqueue_add_work [] ⟨false, 0, 0⟩ 3 1 2 8).channel = [3] :=
  ⟨((add_work_spec [] ⟨false, 0, 0⟩ 3 1 2 (-1)).1 (Or.inl (by norm_num))).1,
   ((add_work_spec [] ⟨false, 0, 0⟩ 3 1 2 4).1 (Or.inr ⟨by norm_num, by norm_num⟩)).2.2,
   ((add_work_spec [] ⟨false, 0, 0⟩ 3 1 2 8).2 rfl).2.2⟩

/-- C4: `xio_workqueue_disarm` when `TIMER_ARMED` is clear is a no-op that
changes no state (and, returning `void`, trivially succeeds); when armed it
programs the OS disabling value (the timer ends unprogrammed on syscall
success, untouched on failure — the failure is only logged, never
propagated) and clears `TIMER_ARMED` unconditionally, leaving all other
state alone. Likewise `xio_workqueue_rearm` on an empty registry is a
no-op returning success (0). -/
theorem disarm_spec (s : QState) (ok : Bool) (now : Nat) :
    (s.timerArmed = false → xio_workqueue_disarm s ok = s) ∧
    (s.timerArmed = true →
        (xio_workqueue_disarm s ok).timerArmed = false ∧
        (ok = true → (xio_workqueue_disarm s ok).programmed = none) ∧
        (ok = false → (xio_workqueue_disarm s ok).programmed = s.programmed) ∧
        (xio_workqueue_disarm s ok).inPoll = s.inPoll ∧
        (xio_workqueue_disarm s ok).registry = s.registry ∧
        (xio_workqueue_disarm s ok).pending = s.pending) ∧
    (timers_list_is_empty s.registry = true →
        xio_workqueue_rearm s now ok = (s, 0)) := by
  refine ⟨fun h => ?_, fun h => ?_, fun h => ?_⟩
  · simp [xio_workqueue_disarm, h]
  · cases ok <;>
      refine ⟨?_, ?_, ?_, ?_, ?_, ?_⟩ <;>
        simp [xio_workqueue_disarm, h, settime]
  · by_cases hp : s.inPoll = true <;> simp [xio_workqueue_rearm, hp, h]

theorem disarm_spec_witness :
    xio_workqueue_disarm initQ true = initQ ∧
    (xio_workqueue_disarm armedQ true).timerArmed = false ∧
    (xio_workqueue_disarm armedQ true).programmed = none ∧
    xio_workqueue_rearm initQ 0 true = (initQ, 0) :=
  ⟨(disarm_spec initQ true 0).1 rfl,
   ((disarm_spec armedQ true 0).2.1 rfl).1,
   ((disarm_spec armedQ true 0).2.1 rfl).2.1 rfl,
   (disarm_spec initQ true 0).2.2 rfl⟩

/-- C1 counterexample: on the freshly created queue the handle's entry is
not found in the Deadline Registry (the remove branch takes
`TIMERS_LIST_RC_ERROR`), yet `xio_workqueue_del_delayed_work` returns 0 —
a success code, not the error the claim requires. -/
theorem del_delayed_missing_counterexample :
    initQ.registry.any (fun e => decide (e.1 = 0)) = false ∧
    (xio_workqueue_del_delayed_work initQ 0 0 true true).2 = 0 :=
  ⟨rfl, rfl⟩

/-- C1 amended: when the handle's entry is not found in the Deadline
Registry, `xio_workqueue_del_delayed_work` only logs the failure and
returns 0 (success) to the caller — `retval` keeps its initial value and
the rearm step is skipped — while still clearing `XIO_WORK_PENDING` and
leaving `TIMER_ARMED` cleared by the initial defensive disarm, with the
registry unchanged. -/
theorem del_delayed_missing_spec (s : QState) (h : Token) (now : Nat)
    (disarmOk rearmOk : Bool)
    (hnf : s.registry.any (fun e => decide (e.1 = h)) = false) :
    (xio_workqueue_del_delayed_work s h now disarmOk rearmOk).2 = 0 ∧
    (xio_workqueue_del_delayed_work s h now disarmOk rearmOk).1.pending h = false ∧
    (xio_workqueue_del_delayed_work s h now disarmOk rearmOk).1.timerArmed = false ∧
    (xio_workqueue_del_delayed_work s h now disarmOk rearmOk).1.registry
        = s.registry := by
  have hreg := disarm_registry s disarmOk
  have harm := disarm_armed s disarmOk
  unfold xio_workqueue_del_delayed_work
  simp [hreg, hnf, harm]

theorem del_delayed_missing_spec_witness :
    (xio_workqueue_del_delayed_work oneQ 7 0 true true).2 = 0 ∧
    (xio_workqueue_del_delayed_work oneQ 7 0 true true).1.registry
        = oneQ.registry :=
  ⟨(del_delayed_missing_spec oneQ 7 0 true true (by decide)).1,
   (del_delayed_missing_spec oneQ 7 0 true true (by decide)).2.2.2⟩

/-- C3: `xio_workqueue_rearm` returns success without reprogramming when
`IN_POLL` is set or the registry is empty; otherwise, with `r` the
nanoseconds until the next expiry, when `r < 1` it programs the minimum
representable positive delay (1 ns — never the zero/disable value while a
deadline exists) and when `1 ≤ r` it programs exactly `r` normalized into
seconds plus a nanosecond part in `[0, 10 ^ 9)`; on successful programming
it sets `TIMER_ARMED`. -/
theorem rearm_spec (s : QState) (now : Nat) (ok : Bool) :
    (s.inPoll = true → xio_workqueue_rearm s now ok = (s, 0)) ∧
    (timers_list_is_empty s.registry = true →
        xio_workqueue_rearm s now ok = (s, 0)) ∧
    (s.inPoll = false → timers_list_is_empty s.registry = false →
      (ns_duration_to_expire s.registry now < 1 →
          xio_workqueue_rearm s now true
            = ({ s with programmed := some ⟨0, 1⟩, timerArmed := true }, 0)) ∧
      (1 ≤ ns_duration_to_expire s.registry now →
          ∃ v : Timespec,
            xio_workqueue_rearm s now true
              = ({ s with programmed := some v, timerArmed := true }, 0) ∧
            v.tv_sec * NSEC_PER_SEC + v.tv_nsec
              = ns_duration_to_expire s.registry now ∧
            0 ≤ v.tv_nsec ∧ v.tv_nsec < NSEC_PER_SEC ∧ v ≠ zeroTs)) := by
  refine ⟨fun h1 => by simp [xio_workqueue_rearm, h1], fun h2 => ?_,
    fun h1 h2 => ?_⟩
  · by_cases h1 : s.inPoll = true <;> simp [xio_workqueue_rearm, h1, h2]
  · have hr : 0 ≤ ns_duration_to_expire s.registry now :=
      ns_duration_nonneg s.registry now h2
    have h3 : ¬ ns_duration_to_expire s.registry now = -1 := by omega
    constructor
    · intro hlt
      simp [xio_workqueue_rearm, h1, h2, h3, hlt, settime, zeroTs]
    · intro hge
      obtain ⟨hsum, hlo, hhi⟩ := set_normalized_timespec_spec _ hr
      have hz : set_normalized_timespec 0 (ns_duration_to_expire s.registry now)
          ≠ zeroTs := by
        intro hzz
        rw [hzz] at hsum
        simp only [zeroTs] at hsum
        simp at hsum
        omega
      have hlt : ¬ ns_duration_to_expire s.registry now < 1 := by omega
      refine ⟨set_normalized_timespec 0 (ns_duration_to_expire s.registry now),
        ?_, hsum, hlo, hhi, hz⟩
      simp [xio_workqueue_rearm, h1, h2, h3, hlt, settime, hz]

theorem rearm_spec_witness :
    xio_workqueue_rearm ⟨true, false, none, [], fun _ => false⟩ 0 true
        = (⟨true, false, none, [], fun _ => false⟩, 0) ∧
    xio_workqueue_rearm oneQdue 5 true
        = ({ oneQdue with programmed := some ⟨0, 1⟩, timerArmed := true }, 0) ∧
    (xio_workqueue_rearm oneQ 0 true).1.timerArmed = true := by
  refine ⟨(rearm_spec ⟨true, false, none, [], fun _ => false⟩ 0 true).1 rfl,
    ((rearm_spec oneQdue 5 true).2.2 rfl rfl).1 (by decide), ?_⟩
  obtain ⟨v, hv, -, -, -, -⟩ :=
    ((rearm_spec oneQ 0 true).2.2 rfl rfl).2 (by decide)
  rw [hv]

/-- C10: the duration handed to the registry by
`xio_workqueue_add_delayed_work` is `((uint64_t)msec_duration) * 1000000ULL`
— the signed millisecond argument reduced modulo `2 ^ 64`, times `10 ^ 6`,
modulo `2 ^ 64`. For every non-negative `int` argument this is exactly the
delay in milliseconds converted to nanoseconds, while every negative
argument wraps to at least `2 ^ 64 - 2 ^ 31 * 10 ^ 6` nanoseconds (more
than five hundred years) instead of an immediate or past deadline. -/
theorem add_delayed_duration_spec (s : QState) (h : Token) (msec : Int)
    (now : Nat) (settimeOk : Bool)
    (hlo : -(2 ^ 31) ≤ msec) (hhi : msec < 2 ^ 31) :
    (xio_workqueue_add_delayed_work s h msec now true settimeOk).1.registry
        = s.registry ++ [(h, now + duration_ns msec)] ∧
    duration_ns msec
        = (((msec % (2 : Int) ^ 64) * 1000000) % (2 : Int) ^ 64).toNat ∧
    (0 ≤ msec → duration_ns msec = msec.toNat * 1000000) ∧
    (msec < 0 → 2 ^ 64 - 2 ^ 31 * 1000000 ≤ duration_ns msec) := by
  refine ⟨?_, ?_, ?_, ?_⟩
  · unfold xio_workqueue_add_delayed_work
    simp [rearm_registry]
  · unfold duration_ns
    have e1 : 0 ≤ msec % (2 : Int) ^ 64 := Int.emod_nonneg _ (by norm_num)
    obtain ⟨n, hn⟩ : ∃ n : Nat, msec % (2 : Int) ^ 64 = n :=
      ⟨(msec % (2 : Int) ^ 64).toNat, (Int.toNat_of_nonneg e1).symm⟩
    rw [hn]
    norm_cast
  · intro h0
    unfold duration_ns
    have e1 : msec % (2 : Int) ^ 64 = msec := Int.emod_eq_of_lt h0 (by omega)
    rw [e1]
    omega
  · intro hneg
    unfold duration_ns
    have e1 : msec % (2 : Int) ^ 64 = msec + 2 ^ 64 := by omega
    rw [e1]
    obtain ⟨j, hj1, hj2, hj3⟩ : ∃ j : Nat, 1 ≤ j ∧ j ≤ 2 ^ 31 ∧
        (msec + 2 ^ 64).toNat = 2 ^ 64 - j :=
      ⟨(-msec).toNat, by omega, by omega, by omega⟩
    rw [hj3]
    have hlt : j * 1000000 ≤ 2 ^ 31 * 1000000 := Nat.mul_le_mul_right _ hj2
    have key : (2 ^ 64 - j) * 1000000
        = 2 ^ 64 * (1000000 - 1) + (2 ^ 64 - j * 1000000) := by omega
    rw [key, Nat.mul_add_mod]
    have hsm : 2 ^ 64 - j * 1000000 < 2 ^ 64 := by omega
    rw [Nat.mod_eq_of_lt hsm]
    omega

theorem add_delayed_duration_witness :
    duration_ns 5 = (5 : Int).toNat * 1000000 ∧
    2 ^ 64 - 2 ^ 31 * 1000000 ≤ duration_ns (-1) :=
  ⟨(add_delayed_duration_spec initQ 0 5 0 true (by norm_num) (by norm_num)).2.2.1
      (by norm_num),
   (add_delayed_duration_spec initQ 0 (-1) 0 true (by norm_num) (by norm_num)).2.2.2
      (by norm_num)⟩

/-! ## Drain-handler lemmas (for C6) -/

lemma clearItem_pending (w : WorkItem) : (clearItem w).pending = false := rfl

lemma clearItem_idem (w : WorkItem) : clearItem (clearItem w) = clearItem w := rfl

lemma handler_nil (items : Token → WorkItem) :
    xio_work_action_handler items [] = (items, []) := rfl

lemma handler_cons_pending (items : Token → WorkItem) (t : Token)
    (rest : List Token) (hp : (items t).pending = true) :
    xio_work_action_handler items (t :: rest)
      = ((xio_work_action_handler
            (fun u => if u = t then clearItem (items t) else items u) rest).1,
         ⟨t, clearItem (items t)⟩ ::
           (xio_work_action_handler
             (fun u => if u = t then clearItem (items t) else items u) rest).2) := by
  simp [xio_work_action_handler, hp]

lemma handler_cons_skip (items : Token → WorkItem) (t : Token)
    (rest : List Token) (hp : (items t).pending = false) :
    xio_work_action_handler items (t :: rest)
      = xio_work_action_handler items rest := by
  simp [xio_work_action_handler, hp]

lemma handler_tok_sublist (items : Token → WorkItem) (tokens : List Token) :
    ((xio_work_action_handler items tokens).2.map Invocation.tok).Sublist
      tokens := by
  induction tokens generalizing items with
  | nil => simp [handler_nil]
  | cons t0 rest ih =>
    by_cases hp : (items t0).pending = true
    · rw [handler_cons_pending items t0 rest hp]
      exact List.Sublist.cons₂ t0 (ih _)
    · rw [handler_cons_skip items t0 rest (by simpa using hp)]
      exact List.Sublist.cons t0 (ih _)

lemma handler_mem_iff (items : Token → WorkItem) (tokens : List Token)
    (t : Token) :
    t ∈ (xio_work_action_handler items tokens).2.map Invocation.tok ↔
      ((items t).pending = true ∧ t ∈ tokens) := by
  induction tokens generalizing items with
  | nil => simp [handler_nil]
  | cons t0 rest ih =>
    by_cases hp : (items t0).pending = true
    · rw [handler_cons_pending items t0 rest hp]
      simp only [List.map_cons, List.mem_cons]
      by_cases ht : t = t0
      · subst ht
        simp [hp]
      · have hit : (if t = t0 then clearItem (items t0) else items t)
            = items t := if_neg ht
        constructor
        · rintro (h | h)
          · exact absurd h ht
          · rw [ih] at h
            rw [hit] at h
            exact ⟨h.1, Or.inr h.2⟩
        · rintro ⟨hpend, (h | h)⟩
          · exact absurd h ht
          · exact Or.inr ((ih _).mpr ⟨by rw [hit]; exact hpend, h⟩)
    · rw [handler_cons_skip items t0 rest (by simpa using hp)]
      rw [ih]
      constructor
      · rintro ⟨h1, h2⟩
        exact ⟨h1, List.mem_cons_of_mem t0 h2⟩
      · rintro ⟨h1, h2⟩
        rcases List.mem_cons.mp h2 with rfl | h2
        · exact absurd h1 hp
        · exact ⟨h1, h2⟩

lemma handler_tok_nodup (items : Token → WorkItem) (tokens : List Token) :
    ((xio_work_action_handler items tokens).2.map Invocation.tok).Nodup := by
  induction tokens generalizing items with
  | nil => simp [handler_nil]
  | cons t0 rest ih =>
    by_cases hp : (items t0).pending = true
    · rw [handler_cons_pending items t0 rest hp]
      simp only [List.map_cons, List.nodup_cons]
      refine ⟨?_, ih _⟩
      rw [handler_mem_iff]
      simp [clearItem_pending]
    · rw [handler_cons_skip items t0 rest (by simpa using hp)]
      exact ih _

lemma handler_inv_items (items : Token → WorkItem) (tokens : List Token) :
    ∀ p ∈ (xio_work_action_handler items tokens).2,
      p.item = clearItem (items p.tok) ∧ p.item.pending = false := by
  induction tokens generalizing items with
  | nil => simp [handler_nil]
  | cons t0 rest ih =>
    by_cases hp : (items t0).pending = true
    · rw [handler_cons_pending items t0 rest hp]
      intro p hmem
      rcases List.mem_cons.mp hmem with rfl | hmem
      · exact ⟨rfl, rfl⟩
      · obtain ⟨h1, h2⟩ := ih _ p hmem
        refine ⟨?_, h2⟩
        rw [h1]
        by_cases he : p.tok = t0
        · rw [he]
          simp [clearItem_idem]
        · simp [he]
    · rw [handler_cons_skip items t0 rest (by simpa using hp)]
      exact ih items

lemma handler_final (items : Token → WorkItem) (tokens : List Token)
    (t : Token) :
    (xio_work_action_handler items tokens).1 t
      = if (items t).pending = true ∧ t ∈ tokens
        then clearItem (items t) else items t := by
  induction tokens generalizing items with
  | nil => simp [handler_nil]
  | cons t0 rest ih =>
    by_cases hp : (items t0).pending = true
    · rw [handler_cons_pending items t0 rest hp]
      rw [ih]
      by_cases he : t = t0
      · subst he
        simp [hp, clearItem_pending]
      · rw [if_neg he]
        simp [List.mem_cons, he]
    · rw [handler_cons_skip items t0 rest (by simpa using hp)]
      rw [ih]
      by_cases he : t = t0
      · subst he
        simp [hp]
      · by_cases hm : t ∈ rest
        · simp [hm, List.mem_cons, he]
        · simp [hm, List.mem_cons, he]

/-- C6: the wake-channel handler reads tokens one at a time in FIFO order
until the read would block. A drained token's callback is invoked exactly
when its item's `XIO_WORK_PENDING` flag is set at drain time — hence at most
once per item, in read order (the invocation tokens form a duplicate-free
sublist of the channel order, and contain exactly the channel tokens whose
item was Pending when the pass began) — and the flag is cleared before the
invocation, so the callback observes a non-Pending item holding the stored
callback and data. Tokens whose item is not Pending at drain time are
skipped: the final item map alters exactly the invoked items. -/
theorem work_action_handler_spec (items : Token → WorkItem)
    (tokens : List Token) :
    ((xio_work_action_handler items tokens).2.map Invocation.tok).Sublist
        tokens ∧
    (∀ t, t ∈ (xio_work_action_handler items tokens).2.map Invocation.tok ↔
        ((items t).pending = true ∧ t ∈ tokens)) ∧
    ((xio_work_action_handler items tokens).2.map Invocation.tok).Nodup ∧
    (∀ p ∈ (xio_work_action_handler items tokens).2,
        p.item = clearItem (items p.tok) ∧ p.item.pending = false) ∧
    (∀ t, (xio_work_action_handler items tokens).1 t
        = if (items t).pending = true ∧ t ∈ tokens
          then clearItem (items t) else items t) :=
  ⟨handler_tok_sublist items tokens, handler_mem_iff items tokens,
   handler_tok_nodup items tokens, handler_inv_items items tokens,
   handler_final items tokens⟩

theorem work_action_handler_witness :
    (0 : Token) ∈ (xio_work_action_handler items0 [0, 1, 0]).2.map
        Invocation.tok ∧
    ((xio_work_action_handler items0 [0, 1, 0]).1 0).pending = false := by
  constructor
  · exact ((work_action_handler_spec items0 [0, 1, 0]).2.1 0).mpr
      ⟨rfl, by decide⟩
  · rw [(work_action_handler_spec items0 [0, 1, 0]).2.2.2.2 0]
    rw [if_pos ⟨rfl, by decide⟩]
    rfl

/-! ## Operation-description lemmas for the transition system -/

lemma registered_iff_mem (s : QState) (h : Token) :
    registered s h ↔ h ∈ s.registry.map Prod.fst := by
  simp [List.any_eq_true, List.mem_map]

lemma add_delayed_state (s : QState) (h : Token) (msec : Int) (now : Nat)
    (settimeOk : Bool) :
    (xio_workqueue_add_delayed_work s h msec now true settimeOk).1.registry
        = s.registry ++ [(h, now + duration_ns msec)] ∧
    (xio_workqueue_add_delayed_work s h msec now true settimeOk).1.pending
        = fun x => if x = h then true else s.pending x := by
  unfold xio_workqueue_add_delayed_work
  constructor
  · simp [rearm_registry]
  · simp [rearm_pending]

lemma add_delayed_fail_state (s : QState) (h : Token) (msec : Int) (now : Nat)
    (settimeOk : Bool) :
    (xio_workqueue_add_delayed_work s h msec now false settimeOk).1
        = { s with pending := fun x => if x = h then true else s.pending x } := by
  unfold xio_workqueue_add_delayed_work
  simp

lemma del_delayed_state (s : QState) (h : Token) (now : Nat)
    (disarmOk rearmOk : Bool) :
    (xio_workqueue_del_delayed_work s h now disarmOk rearmOk).1.registry
        = s.registry.filter (fun e => decide (e.1 ≠ h)) ∧
    (xio_workqueue_del_delayed_work s h now disarmOk rearmOk).1.pending
        = fun x => if x = h then false else s.pending x := by
  by_cases hc : s.registry.any (fun e => decide (e.1 = h)) = true
  · unfold xio_workqueue_del_delayed_work
    constructor
    · simp [disarm_registry, disarm_pending, hc, rearm_registry, timers_list_del]
    · simp [disarm_registry, disarm_pending, hc, rearm_pending]
  · have hfil : List.filter (fun e => !decide (e.1 = h)) s.registry = s.registry := by
      apply List.filter_eq_self.mpr
      intro e he
      simp only [List.any_eq_true, decide_eq_true_eq] at hc
      simp only [Bool.not_eq_true', decide_eq_false_iff_not]
      exact fun hx => hc ⟨e, he, hx⟩
    unfold xio_workqueue_del_delayed_work
    constructor
    · simp [disarm_registry, disarm_pending, hc, hfil]
    · simp [disarm_registry, disarm_pending, hc]

lemma dispatch_state (s : QState) (now : Nat) (settimeOk : Bool) :
    (xio_delayed_action_handler s now settimeOk).registry
        = s.registry.filter (fun e => decide (now < e.2)) ∧
    (xio_delayed_action_handler s now settimeOk).pending
        = fun x => if s.registry.any (fun e => decide (e.1 = x ∧ e.2 ≤ now))
                   then false else s.pending x := by
  unfold xio_delayed_action_handler timers_list_expire
  constructor
  · simp [rearm_registry]
  · simp [rearm_pending]

/-- In a registry whose token list is duplicate-free, two entries with the
same token coincide. -/
lemma fst_nodup_unique {reg : List (Token × Nat)}
    (hn : (reg.map Prod.fst).Nodup) {e e' : Token × Nat}
    (he : e ∈ reg) (he' : e' ∈ reg) (hf : e.1 = e'.1) : e = e' := by
  by_contra hne
  have hp : reg.Pairwise (fun a b => a.1 ≠ b.1) := by
    rw [List.Nodup, List.pairwise_map] at hn
    exact hn
  have hsymm : Symmetric (fun a b : Token × Nat => a.1 ≠ b.1) :=
    fun a b hab => hab.symm
  exact (hp.forall hsymm he he' hne) hf

/-! ## Invariant preservation -/

lemma invReg_preserved_of_eq {s s' : QState}
    (hreg : s'.registry = s.registry) (hpend : s'.pending = s.pending) :
    (InvReg s → InvReg s') ∧ (InvRegIff s → InvRegIff s') := by
  unfold InvReg InvRegIff registered
  rw [hreg, hpend]
  exact ⟨id, id⟩

lemma invReg_preserved_insert {s s' : QState} (h : Token) (d : Nat)
    (hreg : s'.registry = s.registry ++ [(h, d)])
    (hpend : s'.pending = fun x => if x = h then true else s.pending x)
    (hfresh : ¬ registered s h) :
    (InvReg s → InvReg s') ∧ (InvRegIff s → InvRegIff s') := by
  have hmem : ∀ t : Token, registered s' t ↔ (registered s t ∨ t = h) := by
    intro t
    rw [registered_iff_mem, registered_iff_mem, hreg]
    simp [List.map_append]
  have hnotmem : h ∉ s.registry.map Prod.fst := by
    rw [← registered_iff_mem]
    exact hfresh
  have hnodup : ∀ hn : (s.registry.map Prod.fst).Nodup,
      (s'.registry.map Prod.fst).Nodup := by
    intro hn
    rw [hreg]
    simp [List.map_append, List.nodup_append, hnotmem, hn]
  have hpend' : ∀ t : Token, s'.pending t = if t = h then true else s.pending t := by
    intro t; rw [hpend]
  constructor
  · rintro ⟨hn, hi⟩
    refine ⟨hnodup hn, ?_⟩
    intro t ht
    rw [hpend']
    by_cases hth : t = h
    · simp [hth]
    · rcases (hmem t).mp ht with h1 | h1
      · simp [hth, hi t h1]
      · exact absurd h1 hth
  · rintro ⟨hn, hi⟩
    refine ⟨hnodup hn, ?_⟩
    intro t
    rw [hpend', hmem]
    by_cases hth : t = h
    · simp [hth]
    · simp only [hth, if_false]
      rw [← hi t]
      simp [hth]

lemma invReg_preserved_remove {s s' : QState} (h : Token)
    (hreg : s'.registry = s.registry.filter (fun e => decide (e.1 ≠ h)))
    (hpend : s'.pending = fun x => if x = h then false else s.pending x) :
    (InvReg s → InvReg s') ∧ (InvRegIff s → InvRegIff s') := by
  have hmem : ∀ t : Token, registered s' t ↔ (registered s t ∧ t ≠ h) := by
    intro t
    rw [registered_iff_mem, registered_iff_mem, hreg]
    simp only [List.mem_map, List.mem_filter, decide_eq_true_eq]
    constructor
    · rintro ⟨e, ⟨he, hne⟩, rfl⟩
      exact ⟨⟨e, he, rfl⟩, hne⟩
    · rintro ⟨⟨e, he, rfl⟩, hne⟩
      exact ⟨e, ⟨he, hne⟩, rfl⟩
  have hnodup : ∀ hn : (s.registry.map Prod.fst).Nodup,
      (s'.registry.map Prod.fst).Nodup := by
    intro hn
    rw [hreg]
    exact ((List.filter_sublist _).map Prod.fst).nodup hn
  have hpend' : ∀ t : Token, s'.pending t = if t = h then false else s.pending t := by
    intro t; rw [hpend]
  constructor
  · rintro ⟨hn, hi⟩
    refine ⟨hnodup hn, ?_⟩
    intro t ht
    obtain ⟨h1, h2⟩ := (hmem t).mp ht
    rw [hpend']
    simp [h2, hi t h1]
  · rintro ⟨hn, hi⟩
    refine ⟨hnodup hn, ?_⟩
    intro t
    rw [hpend', hmem]
    by_cases hth : t = h
    · simp [hth]
    · simp only [hth, if_false, ← hi t]
      simp [hth]

lemma invReg_preserved_expire {s s' : QState} (now : Nat)
    (hreg : s'.registry = s.registry.filter (fun e => decide (now < e.2)))
    (hpend : s'.pending = fun x =>
        if s.registry.any (fun e => decide (e.1 = x ∧ e.2 ≤ now)) then false
        else s.pending x) :
    (InvReg s → InvReg s') ∧ (InvRegIff s → InvRegIff s') := by
  have hmem : ∀ t : Token, registered s' t ↔
      ∃ e ∈ s.registry, now < e.2 ∧ e.1 = t := by
    intro t
    rw [registered_iff_mem, hreg]
    simp only [List.mem_map, List.mem_filter, decide_eq_true_eq]
    constructor
    · rintro ⟨e, ⟨he, hlt⟩, rfl⟩
      exact ⟨e, he, hlt, rfl⟩
    · rintro ⟨e, he, hlt, rfl⟩
      exact ⟨e, ⟨he, hlt⟩, rfl⟩
  have hnodup : ∀ hn : (s.registry.map Prod.fst).Nodup,
      (s'.registry.map Prod.fst).Nodup := by
    intro hn
    rw [hreg]
    exact ((List.filter_sublist _).map Prod.fst).nodup hn
  have hdue : ∀ t : Token, (s.registry.map Prod.fst).Nodup →
      (∃ e ∈ s.registry, now < e.2 ∧ e.1 = t) →
      s.registry.any (fun e => decide (e.1 = t ∧ e.2 ≤ now)) = false := by
    rintro t hn ⟨e, he, hlt, rfl⟩
    rw [List.any_eq_false]
    rintro e' he'
    simp only [decide_eq_true_eq, not_and]
    intro hfe
    have := fst_nodup_unique hn he' he hfe
    subst this
    omega
  have hpend' : ∀ t : Token, s'.pending t =
      if s.registry.any (fun e => decide (e.1 = t ∧ e.2 ≤ now)) then false
      else s.pending t := by
    intro t; rw [hpend]
  constructor
  · rintro ⟨hn, hi⟩
    refine ⟨hnodup hn, ?_⟩
    intro t ht
    have hex := (hmem t).mp ht
    have hdf := hdue t hn hex
    rw [hpend', hdf]
    obtain ⟨e, he, hlt, rfl⟩ := hex
    have : registered s e.1 := by
      rw [registered_iff_mem]
      exact List.mem_map.mpr ⟨e, he, rfl⟩
    simp [hi _ this]
  · rintro ⟨hn, hi⟩
    refine ⟨hnodup hn, ?_⟩
    intro t
    rw [hpend', hmem]
    constructor
    · intro hex
      have hdf := hdue t hn hex
      rw [hdf]
      obtain ⟨e, he, hlt, rfl⟩ := hex
      have : registered s e.1 := by
        rw [registered_iff_mem]
        exact List.mem_map.mpr ⟨e, he, rfl⟩
      simp [(hi _).mp this]
    · intro hp
      by_cases hdf : s.registry.any (fun e => decide (e.1 = t ∧ e.2 ≤ now)) = true
      · rw [hdf] at hp
        simp at hp
      · rw [Bool.not_eq_true] at hdf
        rw [hdf] at hp
        simp at hp
        have hrt : registered s t := (hi t).mpr hp
        rw [registered_iff_mem] at hrt
        obtain ⟨e, he, rfl⟩ := List.mem_map.mp hrt
        refine ⟨e, he, ?_, rfl⟩
        rw [List.any_eq_false] at hdf
        have h2 : ¬ e.2 ≤ now := by simpa using hdf e he
        omega

lemma wqStep_invReg {s s' : QState} (hs : WqStep s s') : InvReg s → InvReg s' := by
  intro hinv
  cases hs with
  | submit h msec now ok hfresh =>
    exact (invReg_preserved_insert h (now + duration_ns msec)
      (add_delayed_state s h msec now ok).1
      (add_delayed_state s h msec now ok).2 hfresh).1 hinv
  | submitInsertFail h msec now ok =>
    rw [add_delayed_fail_state]
    refine ⟨hinv.1, ?_⟩
    intro t ht
    have ht' : registered s t := ht
    show (if t = h then true else s.pending t) = true
    by_cases hth : t = h
    · simp [hth]
    · simp [hth, hinv.2 t ht']
  | cancel h now dOk rOk =>
    exact (invReg_preserved_remove h
      (del_delayed_state s h now dOk rOk).1
      (del_delayed_state s h now dOk rOk).2).1 hinv
  | rearmStep now ok =>
    exact (invReg_preserved_of_eq (rearm_registry s now ok)
      (rearm_pending s now ok)).1 hinv
  | disarmStep ok =>
    exact (invReg_preserved_of_eq (disarm_registry s ok)
      (disarm_pending s ok)).1 hinv
  | fire now ok hp =>
    exact (invReg_preserved_expire now
      (dispatch_state s now ok).1 (dispatch_state s now ok).2).1 hinv

lemma wqStepOkInsert_invRegIff {s s' : QState} (hs : WqStepOkInsert s s') :
    InvRegIff s → InvRegIff s' := by
  intro hinv
  cases hs with
  | submit h msec now ok hfresh =>
    exact (invReg_preserved_insert h (now + duration_ns msec)
      (add_delayed_state s h msec now ok).1
      (add_delayed_state s h msec now ok).2 hfresh).2 hinv
  | cancel h now dOk rOk =>
    exact (invReg_preserved_remove h
      (del_delayed_state s h now dOk rOk).1
      (del_delayed_state s h now dOk rOk).2).2 hinv
  | rearmStep now ok =>
    exact (invReg_preserved_of_eq (rearm_registry s now ok)
      (rearm_pending s now ok)).2 hinv
  | disarmStep ok =>
    exact (invReg_preserved_of_eq (disarm_registry s ok)
      (disarm_pending s ok)).2 hinv
  | fire now ok hp =>
    exact (invReg_preserved_expire now
      (dispatch_state s now ok).1 (dispatch_state s now ok).2).2 hinv

lemma invReg_initQ : InvReg initQ := by
  constructor
  · simp [initQ]
  · intro h hh
    simp [initQ, registered] at hh

lemma invRegIff_initQ : InvRegIff initQ := by
  constructor
  · simp [initQ]
  · intro h
    simp [initQ, registered]

lemma reachable_invReg {s : QState} (hr : ReachableQ s) : InvReg s := by
  unfold ReachableQ at hr
  induction hr with
  | refl => exact invReg_initQ
  | tail hab hbc ih => exact wqStep_invReg hbc ih

lemma reachable_invRegIff {s : QState} (hr : ReachableQOkInsert s) :
    InvRegIff s := by
  unfold ReachableQOkInsert at hr
  induction hr with
  | refl => exact invRegIff_initQ
  | tail hab hbc ih => exact wqStepOkInsert_invRegIff hbc ih

/-! ## InvArm preservation -/

lemma invArm_rearm (s : QState) (now : Nat) (ok : Bool) (hinv : InvArm s) :
    InvArm (xio_workqueue_rearm s now ok).1 := by
  rcases rearm_flags s now ok with ⟨ha, hp⟩ | ⟨ha, v, hp⟩
  · intro hne
    rw [hp] at hne
    rw [ha]
    exact hinv hne
  · intro _
    exact ha

lemma invArm_disarm_ok (s : QState) (hinv : InvArm s) :
    InvArm (xio_workqueue_disarm s true) ∧
    (xio_workqueue_disarm s true).programmed = none := by
  by_cases ha : s.timerArmed = true
  · have hnone : (xio_workqueue_disarm s true).programmed = none := by
      simp [xio_workqueue_disarm, ha, settime]
    exact ⟨fun hne => (hne hnone).elim, hnone⟩
  · have heq : xio_workqueue_disarm s true = s := by
      simp [xio_workqueue_disarm, ha]
    have hnone : s.programmed = none := by
      by_contra hne
      exact ha (hinv hne)
    rw [heq]
    exact ⟨hinv, hnone⟩

lemma invArm_add_delayed (s : QState) (h : Token) (msec : Int) (now : Nat)
    (iOk sOk : Bool) (hinv : InvArm s) :
    InvArm (xio_workqueue_add_delayed_work s h msec now iOk sOk).1 := by
  unfold xio_workqueue_add_delayed_work
  cases iOk with
  | true =>
    simp only [if_true]
    exact invArm_rearm _ now sOk hinv
  | false =>
    simp only [Bool.false_eq_true, if_false]
    exact hinv

lemma invArm_del_delayed (s : QState) (h : Token) (now : Nat) (rOk : Bool)
    (hinv : InvArm s) :
    InvArm (xio_workqueue_del_delayed_work s h now true rOk).1 := by
  obtain ⟨h1, h2⟩ := invArm_disarm_ok s hinv
  unfold xio_workqueue_del_delayed_work
  by_cases hc : ((xio_workqueue_disarm s true).registry.any
      (fun e => decide (e.1 = h))) = true
  · simp only [hc, if_true]
    exact invArm_rearm _ now rOk h1
  · simp only [hc, if_false]
    exact h1

lemma invArm_dispatch (s : QState) (now : Nat) (sOk : Bool) :
    InvArm (xio_delayed_action_handler s now sOk) := by
  unfold xio_delayed_action_handler timers_list_expire
  apply invArm_rearm
  intro hne
  exact absurd rfl hne

lemma wqStepD_invArm {s s' : QState} (hs : WqStepDisarmOk s s') :
    InvArm s → InvArm s' := by
  intro hinv
  cases hs with
  | submit h msec now iOk sOk => exact invArm_add_delayed s h msec now iOk sOk hinv
  | cancel h now rOk => exact invArm_del_delayed s h now rOk hinv
  | rearmStep now ok => exact invArm_rearm s now ok hinv
  | disarmStep => exact (invArm_disarm_ok s hinv).1
  | fire now sOk hp => exact invArm_dispatch s now sOk

lemma reachable_invArm {s : QState} (hr : ReachableQDisarmOk s) : InvArm s := by
  unfold ReachableQDisarmOk at hr
  induction hr with
  | refl => exact fun hne => absurd rfl hne
  | tail hab hbc ih => exact wqStepD_invArm hbc ih

/-- C7 counterexample: the claimed iff fails in a reachable state — a
failing registry insert inside `xio_workqueue_add_delayed_work` (whose error
branch returns after `work->flags |= XIO_WORK_PENDING` but before a
successful insert) leaves handle 0 Pending yet unregistered. -/
theorem registry_iff_pending_counterexample :
    ¬ ∀ s : QState, ReachableQ s →
        ∀ h : Token, (registered s h ↔ s.pending h = true) := by
  intro hclaim
  have hreach : ReachableQ (xio_workqueue_add_delayed_work initQ 0 5 0 false true).1 :=
    Relation.ReflTransGen.single (WqStep.submitInsertFail initQ 0 5 0 true)
  exact absurd ((hclaim _ hreach 0).mpr (by decide)) (by decide)

/-- C7 amended: in every state reachable under any sequence of
submit_delayed, cancel_delayed and expiry-handler steps (all error branches
included) a registered `DelayedWorkItem` is Pending; the converse — and
hence the claimed iff — holds for every sequence in which each registry
insert succeeds, the failing insert being the sole violation (it leaves the
item Pending but unregistered). -/
theorem registry_iff_pending_amended :
    (∀ s : QState, ReachableQ s → ∀ h : Token,
        registered s h → s.pending h = true) ∧
    (∀ s : QState, ReachableQOkInsert s → ∀ h : Token,
        (registered s h ↔ s.pending h = true)) :=
  ⟨fun s hr h => (reachable_invReg hr).2 h,
   fun s hr h => (reachable_invRegIff hr).2 h⟩

theorem registry_iff_pending_amended_witness :
    ((xio_workqueue_add_delayed_work initQ 0 0 5 true true).1.pending 0 = true) ∧
    registered (xio_workqueue_add_delayed_work initQ 0 0 5 true true).1 0 := by
  constructor
  · exact registry_iff_pending_amended.1 _
      (Relation.ReflTransGen.single (WqStep.submit initQ 0 0 5 true (by decide)))
      0 (by decide)
  · exact (registry_iff_pending_amended.2 _
      (Relation.ReflTransGen.single (WqStepOkInsert.submit initQ 0 0 5 true (by decide)))
      0).mpr (by decide)

/-- C8 counterexample: both directions of the claimed iff fail in reachable
states, each exhibited concretely. (i) In a failure-free run, submit one
deadline (timer programmed, `TIMER_ARMED` set) and let it fire: the expiry
handler consumes the expiration and empties the registry, the rearm closing
the pass is a no-op, and `firedQ` has `TIMER_ARMED` set with no programmed
expiration. (ii) After a disarm whose `timerfd_settime` fails,
`xio_workqueue_disarm` has cleared `TIMER_ARMED` unconditionally while the
timer still holds its expiration: `disarmFailQ` is programmed but not
armed. Hence the claimed iff is false over reachable states. -/
theorem timer_armed_iff_counterexample :
    (ReachableQ firedQ ∧ firedQ.timerArmed = true ∧
        firedQ.programmed = none) ∧
    (ReachableQ disarmFailQ ∧ disarmFailQ.timerArmed = false ∧
        disarmFailQ.programmed = some ⟨0, 1⟩) ∧
    ¬ ∀ s : QState, ReachableQ s →
        (s.timerArmed = true ↔ s.programmed ≠ none) := by
  have h1 : ReachableQ submittedQ :=
    Relation.ReflTransGen.single (WqStep.submit initQ 0 0 5 true (by decide))
  have h2 : ReachableQ firedQ :=
    h1.tail (WqStep.fire submittedQ 5 true (by decide))
  have h3 : ReachableQ disarmFailQ :=
    h1.tail (WqStep.disarmStep submittedQ false)
  refine ⟨⟨h2, by decide, by decide⟩, ⟨h3, by decide, by decide⟩, ?_⟩
  intro hclaim
  exact absurd ((hclaim _ h2).mp (by decide)) (by decide)

/-- C8 amended: in every state reachable under runs where each disarm
syscall succeeds, a currently programmed (non-zero, unfired, undisarmed)
expiration implies `TIMER_ARMED` is set. Neither direction of the claimed
iff holds over unrestricted runs: after an expiry pass that empties the
registry, `TIMER_ARMED` remains set with nothing programmed (the stale
flag the counterexample's first state exhibits), and after a disarm whose
`timerfd_settime` fails, the flag is cleared unconditionally while the
expiration is still programmed (its second state) — which is why the
programmed-implies-armed direction needs the disarm-success restriction. -/
theorem timer_armed_amended :
    ∀ s : QState, ReachableQDisarmOk s →
      s.programmed ≠ none → s.timerArmed = true :=
  fun _ hr => reachable_invArm hr

theorem timer_armed_amended_witness : submittedQ.timerArmed = true :=
  timer_armed_amended _
    (Relation.ReflTransGen.single (WqStepDisarmOk.submit initQ 0 0 5 true true))
    (by decide)

/-- C2 counterexample: when the second `xio_context_add_ev_handler` call
fails, the `exit2` rollback closes the pipe and timer fds and frees the
allocation, but the timer readiness source registered just before is never
unregistered (`xio_context_del_ev_handler` is not called on any error
path), so not all previously acquired resources are rolled back. -/
theorem create_rollback_counterexample :
    (xio_workqueue_create true true true true false).2 = false ∧
    (xio_workqueue_create true true true true false).1.timerHandlerRegistered
        = true :=
  ⟨rfl, rfl⟩

/-- C2 amended: every failing step of `xio_workqueue_create` releases the
operating-system resources acquired so far in reverse order — the pipe
ends, the timerfd and the queue allocation — and returns `NULL`, never a
partially built object, and the pipe readiness source is never left
registered; however an already-registered timer readiness source is not
unregistered when the subsequent pipe registration fails: it remains
registered exactly when the first four acquisition steps succeeded. -/
theorem create_rollback_spec (allocOk timerfdOk pipeOk evTimerOk evPipeOk : Bool)
    (hfail : allocOk = false ∨ timerfdOk = false ∨ pipeOk = false ∨
      evTimerOk = false ∨ evPipeOk = false) :
    (xio_workqueue_create allocOk timerfdOk pipeOk evTimerOk evPipeOk).2 = false ∧
    (xio_workqueue_create allocOk timerfdOk pipeOk evTimerOk evPipeOk).1.allocHeld
        = false ∧
    (xio_workqueue_create allocOk timerfdOk pipeOk evTimerOk evPipeOk).1.timerFdOpen
        = false ∧
    (xio_workqueue_create allocOk timerfdOk pipeOk evTimerOk evPipeOk).1.pipeOpen
        = false ∧
    (xio_workqueue_create allocOk timerfdOk pipeOk evTimerOk evPipeOk).1.pipeHandlerRegistered
        = false ∧
    (xio_workqueue_create allocOk timerfdOk pipeOk evTimerOk evPipeOk).1.timerHandlerRegistered
        = (allocOk && timerfdOk && pipeOk && evTimerOk) := by
  cases allocOk <;> cases timerfdOk <;> cases pipeOk <;> cases evTimerOk <;>
    cases evPipeOk
  all_goals first
  | exact absurd hfail (by decide)
  | decide

theorem create_rollback_spec_witness :
    (xio_workqueue_create true true false true true).2 = false ∧
    (xio_workqueue_create true true false true true).1.timerFdOpen = false :=
  ⟨(create_rollback_spec true true false true true
      (Or.inr (Or.inr (Or.inl rfl)))).1,
   (create_rollback_spec true true false true true
      (Or.inr (Or.inr (Or.inl rfl)))).2.2.1⟩

end XioWq
